import Mathlib

/-!
Shallow embedding of the core of the `lumo` Bitcoin wallet
(persistence / lifecycle layer): domain types from `crates/lumo-types`,
the gap-limit address-reveal algorithm and transaction projector from
`src/wallet.rs`, the typed tables from `src/database/`, and the in-memory
wallet registry from `src/wallet_manager.rs`.

Machine integers (`u8`, `u32`, `u64`) are modelled as `Nat`; no operation
verified here can overflow on the inputs the theorems quantify over, and
the source's `saturating_sub` is `Nat` subtraction.  Out-of-scope external
collaborators (BIP84 derivation, the BDK chain engine, redb, serde_json,
uuid) are modelled by their documented contracts, as noted at each
definition.
-/

namespace Lumo

/-- Bitcoin network enum, `crates/lumo-types/src/network.rs`. -/
inductive Network where
  | Bitcoin
  | Testnet
  | Testnet4
  | Signet
  | Regtest
deriving DecidableEq, Repr

/-- Amount of satoshis (`crates/lumo-types/src/amount.rs` wraps a `u64`
satoshi count; modelled as the count itself). -/
structure Amount where
  sat : Nat
deriving DecidableEq, Repr

/-- Transaction id (`crates/lumo-types/src/transaction.rs` wraps the
opaque 256-bit `bitcoin::Txid`; modelled as the underlying number). -/
structure TransactionId where
  txid : Nat
deriving DecidableEq, Repr

/-- Transaction direction from the wallet's perspective,
`crates/lumo-types/src/transaction.rs`. -/
inductive TransactionDirection where
  | Incoming
  | Outgoing
  | SelfTransfer
deriving DecidableEq, Repr

/-- Transaction confirmation status, `crates/lumo-types/src/transaction.rs`.
The block height is a `u32` in the source. -/
inductive ConfirmationStatus where
  | Unconfirmed
  | Confirmed (block_height : Nat)
deriving DecidableEq, Repr

/-- Domain transaction record, `crates/lumo-types/src/transaction.rs`.
The timestamp (`Option<jiff::Timestamp>` in the source) is modelled as an
optional number. -/
structure Transaction where
  id : TransactionId
  amount : Amount
  direction : TransactionDirection
  confirmation_status : ConfirmationStatus
  timestamp : Option Nat
deriving DecidableEq, Repr

/-- `Transaction::is_confirmed`, `crates/lumo-types/src/transaction.rs`. -/
def Transaction.is_confirmed (t : Transaction) : Bool :=
  match t.confirmation_status with
  | .Unconfirmed => false
  | .Confirmed _ => true

/-- `Transaction::confirmations`, `crates/lumo-types/src/transaction.rs`:
`current_height.saturating_sub(block_height) + 1` for a confirmed
transaction (`Nat` subtraction is the source's `u32::saturating_sub`),
`0` when unconfirmed. -/
def Transaction.confirmations (t : Transaction) (current_height : Nat) : Nat :=
  match t.confirmation_status with
  | .Unconfirmed => 0
  | .Confirmed block_height => current_height - block_height + 1

/-- Formalisation of the spec sentence for `confirmations` (spec section 4.6,
claim C3): "`0` if unconfirmed; otherwise `current_height - confirmed_height
+ 1` (saturating at zero, never negative)".  The arithmetic is done in `Int`
and the whole expression is clamped at zero, exactly as the sentence reads. -/
def claimedConfirmations (t : Transaction) (current_height : Nat) : Nat :=
  match t.confirmation_status with
  | .Unconfirmed => 0
  | .Confirmed block_height =>
      (max ((current_height : Int) - (block_height : Int) + 1) 0).toNat

/-- Chain position of a transaction as reported by the chain engine
(`bdk_wallet::chain::ChainPosition`, consumed in `src/wallet.rs`): either
unconfirmed or anchored in a block of the given height. -/
inductive ChainPosition where
  | unconfirmed
  | confirmed (height : Nat)
deriving DecidableEq, Repr

/-- The per-transaction projection performed by `Wallet::transactions`
(`src/wallet.rs`, lines 193-226): from the engine's `(sent, received)`
satoshi totals and chain position, build the domain `Transaction`.
`sent` and `received` are the `u64` satoshi values of the source. -/
def projectTransaction (txid : TransactionId) (sent received : Nat)
    (pos : ChainPosition) : Transaction :=
  let direction :=
    if sent > received then TransactionDirection.Outgoing
    else TransactionDirection.Incoming
  let confirmation_status :=
    match pos with
    | .unconfirmed => ConfirmationStatus.Unconfirmed
    | .confirmed h => ConfirmationStatus.Confirmed h
  let amount :=
    if direction = TransactionDirection.Incoming then Amount.mk received
    else Amount.mk sent
  { id := txid, amount := amount, direction := direction,
    confirmation_status := confirmation_status, timestamp := none }

/-- `GAP_LIMIT`, `crates/lumo-common/src/consts.rs` (a `u8` in the source). -/
def GAP_LIMIT : Nat := 30

/-- `MAX_ADDRESSES = (GAP_LIMIT - 5) as usize`, the local constant of
`Wallet::get_new_address` in `src/wallet.rs`. -/
def MAX_ADDRESSES : Nat := GAP_LIMIT - 5

/-- External-keychain state of the BDK chain engine as far as the address
lifecycle is concerned (modelling the out-of-scope engine by its contract):
indices `0 .. revealed - 1` have been revealed, and `used i` says whether
the address at index `i` has appeared in on-chain history.  Addresses are
identified with their derivation indices, since BIP84 derivation is an
injective map owned by the out-of-scope key-derivation collaborator. -/
structure EngineState where
  revealed : Nat
  used : Nat → Bool

/-- The engine's `list_unused_addresses(KeychainKind::External)`: the
revealed-but-unused indices in ascending index order. -/
def list_unused_addresses (s : EngineState) : List Nat :=
  (List.range s.revealed).filter (fun i => !s.used i)

/-- The engine's `reveal_next_address(KeychainKind::External)`: returns the
next sequential index (for a fresh wallet, index 0) and marks it revealed. -/
def reveal_next_address (s : EngineState) : Nat × EngineState :=
  (s.revealed, { s with revealed := s.revealed + 1 })

/-- `Wallet::get_new_address`, `src/wallet.rs` lines 246-273: take at most
`MAX_ADDRESSES` unused addresses; if fewer than `MAX_ADDRESSES`, reveal the
next sequential address; otherwise return the first (lowest-index) unused
address; the final branch is the source's defensive fallback. -/
def get_new_address (s : EngineState) : Nat × EngineState :=
  let unused_addresses := (list_unused_addresses s).take MAX_ADDRESSES
  if unused_addresses.length < MAX_ADDRESSES then
    reveal_next_address s
  else
    match unused_addresses.head? with
    | some first_unused => (first_unused, s)
    | none => reveal_next_address s

/-- A fresh wallet's engine state: nothing revealed, nothing used. -/
def freshEngine : EngineState :=
  { revealed := 0, used := fun _ => false }

/-- Run `n` successive `get_new_address` calls, collecting the returned
addresses in call order. -/
def runCalls : Nat → EngineState → List Nat × EngineState
  | 0, s => ([], s)
  | n + 1, s =>
      let (a, s1) := get_new_address s
      let (rest, s2) := runCalls n s1
      (a :: rest, s2)

/-- Wallet identifier (defined identically in `src/wallet.rs` and
`src/rust/src/wallet/metadata.rs`; wraps a `uuid::Uuid`).  Modelled by
its canonical lowercase string form: the uuid crate's parse/display
round-trip on canonical forms is that collaborator's contract. -/
structure WalletId where
  uuid : List Char
deriving DecidableEq, Repr

/-- `WalletId`'s `Display` (`to_string()`): the canonical string form. -/
def WalletId.toString (id : WalletId) : List Char :=
  id.uuid

/-- `WalletId::from_string`: parse a canonical string form.  The source
rejects strings that are not valid uuids; since the model identifies a
`WalletId` with its canonical form, parsing always succeeds here (every
string stored by this layer is the canonical form of some id). -/
def WalletId.from_string (s : List Char) : Option WalletId :=
  some ⟨s⟩

/-- The wallet-type enum of `src/rust/src/wallet/metadata.rs` (line 33):
`Hot` (the default), `Cold`, `XpubOnly`. -/
inductive WalletType where
  | Hot
  | Cold
  | XpubOnly
deriving DecidableEq, Repr

/-- The `WalletMetadata` record of `src/rust/src/wallet/metadata.rs`
(line 61), fields in declaration order: `id`, `name`, `network`,
`created_at` (the ISO timestamp string the source stores), `wallet_type`
(its `#[serde(default)]` only affects decoding records that lack the
field, never the serialized shape), `master_fingerprint: Option<String>`. -/
structure WalletMetadata where
  id : WalletId
  name : List Char
  network : Network
  created_at : List Char
  wallet_type : WalletType
  master_fingerprint : Option (List Char)
deriving DecidableEq, Repr

/-- JSON escaping of one character as performed by `serde_json` on strings:
a quote or backslash gets a backslash prefix.  (serde_json additionally
`\u`-escapes control characters; that alternative spelling of a character
does not affect any round-trip property verified here and is elided.) -/
def escapeChar (c : Char) : List Char :=
  if c = '"' then ['\\', '"']
  else if c = '\\' then ['\\', '\\']
  else [c]

/-- JSON escaping of a whole string. -/
def escapeString : List Char → List Char
  | [] => []
  | c :: cs => escapeChar c ++ escapeString cs

/-- Parse the body of a JSON string up to and including its closing quote,
returning the unescaped content and the remaining input. -/
def parseStringBody : List Char → Option (List Char × List Char)
  | [] => none
  | c :: cs =>
      if c = '"' then some ([], cs)
      else if c = '\\' then
        match cs with
        | [] => none
        | d :: ds =>
            if d = '"' ∨ d = '\\' then
              match parseStringBody ds with
              | some (content, rest) => some (d :: content, rest)
              | none => none
            else none
      else
        match parseStringBody cs with
        | some (content, rest) => some (c :: content, rest)
        | none => none

/-- Consume an expected literal prefix, returning the remaining input. -/
def expects : List Char → List Char → Option (List Char)
  | [], s => some s
  | _ :: _, [] => none
  | l :: ls, c :: cs => if c = l then expects ls cs else none

/-- serde variant name of a `Network` value (derived `Serialize` uses the
Rust variant identifiers, not the `derive_more::Display` strings). -/
def networkVariant : Network → List Char
  | .Bitcoin => ("Bitcoin").toList
  | .Testnet => ("Testnet").toList
  | .Testnet4 => ("Testnet4").toList
  | .Signet => ("Signet").toList
  | .Regtest => ("Regtest").toList

/-- Inverse of `networkVariant`, as derived `Deserialize` matches variant
names. -/
def networkFromVariant (s : List Char) : Option Network :=
  if s = ("Bitcoin").toList then some .Bitcoin
  else if s = ("Testnet").toList then some .Testnet
  else if s = ("Testnet4").toList then some .Testnet4
  else if s = ("Signet").toList then some .Signet
  else if s = ("Regtest").toList then some .Regtest
  else none

/-- serde variant name of a `WalletType` value. -/
def walletTypeVariant : WalletType → List Char
  | .Hot => ("Hot").toList
  | .Cold => ("Cold").toList
  | .XpubOnly => ("XpubOnly").toList

/-- Inverse of `walletTypeVariant`. -/
def walletTypeFromVariant (s : List Char) : Option WalletType :=
  if s = ("Hot").toList then some .Hot
  else if s = ("Cold").toList then some .Cold
  else if s = ("XpubOnly").toList then some .XpubOnly
  else none

/-- Literal `{"id":"` opening the serialized record. -/
def LIT_OPEN_ID : List Char := ['\x7b', '"', 'i', 'd', '"', ':', '"']

/-- Literal `,"name":"` (the closing quote of the previous field is emitted
separately). -/
def LIT_NAME : List Char := [',', '"', 'n', 'a', 'm', 'e', '"', ':', '"']

/-- Literal `,"network":"`. -/
def LIT_NETWORK : List Char :=
  [',', '"', 'n', 'e', 't', 'w', 'o', 'r', 'k', '"', ':', '"']

/-- Literal `,"created_at":"`. -/
def LIT_CREATED_AT : List Char :=
  [',', '"', 'c', 'r', 'e', 'a', 't', 'e', 'd', '_', 'a', 't', '"', ':', '"']

/-- Literal `,"wallet_type":"`. -/
def LIT_WALLET_TYPE : List Char :=
  [',', '"', 'w', 'a', 'l', 'l', 'e', 't', '_', 't', 'y', 'p', 'e', '"', ':', '"']

/-- Literal `,"master_fingerprint":`. -/
def LIT_FINGERPRINT : List Char :=
  [',', '"', 'm', 'a', 's', 't', 'e', 'r', '_', 'f', 'i', 'n', 'g', 'e', 'r',
   'p', 'r', 'i', 'n', 't', '"', ':']

/-- Literal `null}` ending the record when the fingerprint is absent. -/
def LIT_NULL_END : List Char := ['n', 'u', 'l', 'l', '\x7d']

/-- Serialization of the optional `master_fingerprint` value plus the
record's closing brace: `null}`, or the quoted escaped string and `}`. -/
def encodeFingerprintEnd : Option (List Char) → List Char
  | none => LIT_NULL_END
  | some fp => '"' :: (escapeString fp ++ '"' :: '\x7d' :: [])

/-- Parse the optional fingerprint value and the closing brace, requiring
the input to end exactly there. -/
def decodeFingerprintEnd : List Char → Option (Option (List Char))
  | '"' :: s =>
      match parseStringBody s with
      | some (fp, rest) => if rest = ['\x7d'] then some (some fp) else none
      | none => none
  | s =>
      match expects LIT_NULL_END s with
      | some [] => some none
      | _ => none

/-- `serde_json::to_string(&wallet)` on a `WalletMetadata` value: the JSON
object with the record's fields in declaration order, `Option` rendered as
`null` or a string, enums as variant-name strings. -/
def encodeMetadata (m : WalletMetadata) : List Char :=
  LIT_OPEN_ID ++ escapeString m.id.toString ++ '"' ::
  (LIT_NAME ++ escapeString m.name ++ '"' ::
  (LIT_NETWORK ++ escapeString (networkVariant m.network) ++ '"' ::
  (LIT_CREATED_AT ++ escapeString m.created_at ++ '"' ::
  (LIT_WALLET_TYPE ++ escapeString (walletTypeVariant m.wallet_type) ++ '"' ::
  (LIT_FINGERPRINT ++ encodeFingerprintEnd m.master_fingerprint)))))

/-- `serde_json::from_str::<WalletMetadata>`: parse back the serialization
produced by `encodeMetadata` (the only shape this layer ever stores),
failing on anything that does not decode. -/
def decodeMetadata (s : List Char) : Option WalletMetadata :=
  (expects LIT_OPEN_ID s).bind fun s =>
  (parseStringBody s).bind fun (idStr, s) =>
  (expects LIT_NAME s).bind fun s =>
  (parseStringBody s).bind fun (nameStr, s) =>
  (expects LIT_NETWORK s).bind fun s =>
  (parseStringBody s).bind fun (netStr, s) =>
  (networkFromVariant netStr).bind fun network =>
  (expects LIT_CREATED_AT s).bind fun s =>
  (parseStringBody s).bind fun (caStr, s) =>
  (expects LIT_WALLET_TYPE s).bind fun s =>
  (parseStringBody s).bind fun (wtStr, s) =>
  (walletTypeFromVariant wtStr).bind fun wallet_type =>
  (expects LIT_FINGERPRINT s).bind fun s =>
  (decodeFingerprintEnd s).bind fun master_fingerprint =>
  some { id := ⟨idStr⟩, name := nameStr, network := network,
         created_at := caStr, wallet_type := wallet_type,
         master_fingerprint := master_fingerprint }

/-- First-match lookup in an association list.  Models both a redb table
(`table.get(key)`) and `HashMap::get`: both structures keep keys unique, so
first-match semantics coincide with map semantics. -/
def lookupKV {α β : Type} [DecidableEq α] : List (α × β) → α → Option β
  | [], _ => none
  | (k, v) :: rest, key => if k = key then some v else lookupKV rest key

/-- Insert-or-replace in an association list (`table.insert(key, value)` /
`HashMap::insert`): replace the entry in place if the key is present,
append otherwise. -/
def insertKV {α β : Type} [DecidableEq α] : List (α × β) → α → β → List (α × β)
  | [], key, val => [(key, val)]
  | (k, v) :: rest, key, val =>
      if k = key then (key, val) :: rest
      else (k, v) :: insertKV rest key val

/-- Remove a key from an association list (`table.remove(key)`): drops every
entry with that key (a redb table holds each key at most once). -/
def removeKV {α β : Type} [DecidableEq α] : List (α × β) → α → List (α × β)
  | [], _ => []
  | (k, v) :: rest, key =>
      if k = key then removeKV rest key
      else (k, v) :: removeKV rest key

/-- Contents of one redb table: string keys to string values.  redb's
transactional guarantees (atomic commit, snapshot reads) mean each
committed operation of `src/database/` acts as one pure function on the
table contents, which is how the operations below are modelled; redb-level
I/O failures are out of scope. -/
abbrev Table : Type := List (List Char × List Char)

/-- Error taxonomy of `src/database/error.rs`.  The message payloads carry
no information used by this layer and are dropped. -/
inductive DatabaseError where
  | OpenError
  | ReadError
  | WriteError
  | RedbError
  | SerializationError
deriving DecidableEq, Repr

/-- `WalletsTable::save_new_wallet_metadata`, `src/database/wallet.rs`:
serialize the record and insert it under the canonical string form of its
id (a silent upsert), inside one committed write transaction. -/
def save_new_wallet_metadata (t : Table) (wallet : WalletMetadata) : Table :=
  insertKV t wallet.id.toString (encodeMetadata wallet)

/-- `WalletsTable::get`, `src/database/wallet.rs`: look the id up, decode
the stored JSON, `none` if absent, `SerializationError` if the stored bytes
do not decode. -/
def WalletsTable.get (t : Table) (id : WalletId) :
    Except DatabaseError (Option WalletMetadata) :=
  match lookupKV t id.toString with
  | some json_data =>
      match decodeMetadata json_data with
      | some wallet => .ok (some wallet)
      | none => .error .SerializationError
  | none => .ok none

/-- `WalletsTable::get_all`, `src/database/wallet.rs`: decode every record
in table order, keeping those matching the optional network filter; the
first record that fails to decode aborts with `SerializationError`. -/
def WalletsTable.get_all : Table → Option Network →
    Except DatabaseError (List WalletMetadata)
  | [], _ => .ok []
  | (_, json_data) :: rest, network =>
      match decodeMetadata json_data with
      | none => .error .SerializationError
      | some wallet =>
          match WalletsTable.get_all rest network with
          | .error e => .error e
          | .ok wallets =>
              match network with
              | some filter_network =>
                  if wallet.network = filter_network then .ok (wallet :: wallets)
                  else .ok wallets
              | none => .ok (wallet :: wallets)

/-- The table contents produced by saving each record of `ms` once, ids
assumed fresh: each record sits under its id's canonical key. -/
def tableOf (ms : List WalletMetadata) : Table :=
  ms.map (fun m => (m.id.toString, encodeMetadata m))

/-- The single key used by the global-config table,
`src/database/global_config.rs`. -/
def SELECTED_WALLET_KEY : List Char := ("selected_wallet_id").toList

/-- `GlobalConfigTable::select_wallet`: upsert the selected id's canonical
string under the fixed key. -/
def GlobalConfigTable.select_wallet (t : Table) (wallet_id : WalletId) : Table :=
  insertKV t SELECTED_WALLET_KEY wallet_id.toString

/-- `GlobalConfigTable::selected_wallet`: look the key up and parse the
stored id; `none` if never set or cleared.  A parse failure surfaces as
`ReadError` (the source's `From<WalletError> for DatabaseError`). -/
def GlobalConfigTable.selected_wallet (t : Table) :
    Except DatabaseError (Option WalletId) :=
  match lookupKV t SELECTED_WALLET_KEY with
  | some s =>
      match WalletId.from_string s with
      | some wallet_id => .ok (some wallet_id)
      | none => .error .ReadError
  | none => .ok none

/-- `GlobalConfigTable::clear_selected_wallet`: remove the key (redb's
`remove` of an absent key is a successful no-op). -/
def GlobalConfigTable.clear_selected_wallet (t : Table) : Table :=
  removeKV t SELECTED_WALLET_KEY

/-- Error taxonomy of `src/wallet/error.rs`.  Message payloads are kept
where the source builds them from fixed text (they identify the error
kind in theorems); the `InvalidMnemonic` payload is an opaque external
error and is dropped. -/
inductive WalletError where
  | Bdk (msg : List Char)
  | Bitcoin (msg : List Char)
  | InvalidMnemonic
  | WalletNotFound (msg : List Char)
  | InvalidNetwork (msg : List Char)
  | AddressGeneration (msg : List Char)
  | Generic (msg : List Char)
  | Database (msg : List Char)
  | WalletAlreadyExists (msg : List Char)
deriving DecidableEq, Repr

/-- The message `try_load_persisted` attaches to its not-found error. -/
def WALLET_NOT_FOUND_MSG : List Char := ("Wallet not found").toList

/-- The message `WalletManager` attaches to a not-found error for `id`:
`format!("Wallet {wallet_id} not found")`. -/
def notFoundMessage (wallet_id : WalletId) : List Char :=
  ("Wallet ").toList ++ wallet_id.toString ++ (" not found").toList

/-- A loaded wallet session, `src/wallet.rs`: its id, network and the BDK
engine state.  The session's metadata snapshot (display name and creation
timestamp strings, rebuilt from the wall clock on load) is read by no
operation verified here and is omitted. -/
structure Wallet where
  id : WalletId
  network : Network
  bdk : EngineState

/-- `Wallet::try_load_persisted`, `src/wallet.rs` lines 171-191.
`persisted` models the per-wallet sqlite stores owned by the BDK
collaborator: `BDKStore::try_new` opens or creates the store file and
`load_wallet` yields `None` exactly when no engine state was ever
persisted for the id, which the source turns into `WalletNotFound`. -/
def try_load_persisted (persisted : WalletId → Option EngineState)
    (wallet_id : WalletId) (network : Network) : Except WalletError Wallet :=
  match persisted wallet_id with
  | none => .error (.WalletNotFound WALLET_NOT_FOUND_MSG)
  | some engine => .ok { id := wallet_id, network := network, bdk := engine }

/-- The in-memory registry, `src/wallet_manager.rs`: loaded sessions keyed
by id plus the active-wallet pointer. -/
structure WalletManager where
  wallets : List (WalletId × Wallet)
  active_wallet_id : Option WalletId

/-- `WalletManager::new`. -/
def WalletManager.new : WalletManager :=
  { wallets := [], active_wallet_id := none }

/-- `WalletManager::add_wallet`, `src/wallet_manager.rs` lines 21-28:
insert (or overwrite) by the wallet's own id; if no active wallet is set,
the new wallet becomes active.  Returns the id as the source does. -/
def WalletManager.add_wallet (m : WalletManager) (wallet : Wallet) :
    WalletId × WalletManager :=
  let wallet_id := wallet.id
  let wallets := insertKV m.wallets wallet_id wallet
  let active :=
    if m.active_wallet_id.isNone then some wallet_id else m.active_wallet_id
  (wallet_id, { wallets := wallets, active_wallet_id := active })

/-- `WalletManager::load_existing_wallet`, `src/wallet_manager.rs` lines
30-34: try to load persisted state; on success insert the session under
the requested id, on failure propagate the error with the manager
untouched (the `?` operator returns before any mutation). -/
def WalletManager.load_existing_wallet (persisted : WalletId → Option EngineState)
    (m : WalletManager) (wallet_id : WalletId) (network : Network) :
    WalletManager × Except WalletError Unit :=
  match try_load_persisted persisted wallet_id network with
  | .error e => (m, .error e)
  | .ok wallet =>
      ({ m with wallets := insertKV m.wallets wallet_id wallet }, .ok ())

/-- `WalletManager::set_active_wallet`, `src/wallet_manager.rs` lines
45-54: succeed and move the pointer when the id is loaded, otherwise fail
with `WalletNotFound` leaving everything unchanged. -/
def WalletManager.set_active_wallet (m : WalletManager) (wallet_id : WalletId) :
    WalletManager × Except WalletError Unit :=
  if (lookupKV m.wallets wallet_id).isSome then
    ({ m with active_wallet_id := some wallet_id }, .ok ())
  else
    (m, .error (.WalletNotFound (notFoundMessage wallet_id)))

/-- The manager states reachable from the empty manager by any sequence of
`add_wallet`, `load_existing_wallet` (against any persisted stores) and
`set_active_wallet` operations. -/
inductive Reachable : WalletManager → Prop where
  | empty : Reachable WalletManager.new
  | add_wallet (m : WalletManager) (w : Wallet) :
      Reachable m → Reachable (m.add_wallet w).2
  | load_existing (persisted : WalletId → Option EngineState)
      (m : WalletManager) (wallet_id : WalletId) (network : Network) :
      Reachable m →
      Reachable (WalletManager.load_existing_wallet persisted m wallet_id network).1
  | set_active (m : WalletManager) (wallet_id : WalletId) :
      Reachable m → Reachable (m.set_active_wallet wallet_id).1

/-! Helper lemmas: codec round trips, association-list maps, and the
unused-address view of the engine. -/

/-- Consuming a literal prefix succeeds and leaves the tail. -/
theorem expects_append (lit rest : List Char) : expects lit (lit ++ rest) = some rest := by
  induction lit with
  | nil => rfl
  | cons l ls ih => simp [expects, ih]

/-- Parsing inverts escaping: the string body parser consumes exactly the
escaped content and its closing quote. -/
theorem parseStringBody_escape (s rest : List Char) :
    parseStringBody (escapeString s ++ '"' :: rest) = some (s, rest) := by
  induction s with
  | nil =>
      show parseStringBody ('"' :: rest) = some ([], rest)
      rw [parseStringBody.eq_def]
      simp
  | cons c cs ih =>
      by_cases hq : c = '"'
      · subst hq
        show parseStringBody ('\\' :: '"' :: (escapeString cs ++ '"' :: rest)) = _
        rw [parseStringBody.eq_def]
        simp [ih]
      · by_cases hb : c = '\\'
        · subst hb
          show parseStringBody ('\\' :: '\\' :: (escapeString cs ++ '"' :: rest)) = _
          rw [parseStringBody.eq_def]
          simp [ih]
        · have hesc : escapeString (c :: cs) = c :: escapeString cs := by
            simp [escapeString, escapeChar, hq, hb]
          rw [hesc, List.cons_append, parseStringBody.eq_def]
          simp [hq, hb, ih]

/-- Network variant names decode back to the network. -/
theorem networkFromVariant_variant (n : Network) :
    networkFromVariant (networkVariant n) = some n := by
  cases n <;> decide

/-- Wallet-type variant names decode back to the wallet type. -/
theorem walletTypeFromVariant_variant (w : WalletType) :
    walletTypeFromVariant (walletTypeVariant w) = some w := by
  cases w <;> decide

/-- The optional-fingerprint tail decodes back to the encoded option. -/
theorem decodeFingerprintEnd_encode (o : Option (List Char)) :
    decodeFingerprintEnd (encodeFingerprintEnd o) = some o := by
  cases o with
  | none => rfl
  | some fp =>
      show decodeFingerprintEnd ('"' :: (escapeString fp ++ '"' :: '\x7d' :: [])) = _
      rw [decodeFingerprintEnd.eq_def]
      simp [parseStringBody_escape]

/-- The metadata codec round-trips: decoding a serialized record yields the
record, for every field content. -/
theorem decodeMetadata_encodeMetadata (m : WalletMetadata) :
    decodeMetadata (encodeMetadata m) = some m := by
  obtain ⟨⟨id⟩, name, network, ca, wt, fp⟩ := m
  simp only [decodeMetadata, encodeMetadata, List.append_assoc, expects_append,
    parseStringBody_escape, networkFromVariant_variant, walletTypeFromVariant_variant,
    decodeFingerprintEnd_encode, Option.some_bind]
  rfl

/-- Lookup after insert: the inserted key maps to the new value and every
other key is untouched. -/
theorem lookupKV_insertKV {α β : Type} [DecidableEq α] (t : List (α × β)) (k k' : α) (v : β) :
    lookupKV (insertKV t k v) k' = if k = k' then some v else lookupKV t k' := by
  induction t with
  | nil =>
      by_cases h : k = k' <;> simp [insertKV, lookupKV, h]
  | cons kv rest ih =>
      obtain ⟨k0, v0⟩ := kv
      by_cases h0 : k0 = k
      · subst h0
        by_cases h : k0 = k' <;> simp [insertKV, lookupKV, h]
      · by_cases h : k0 = k'
        · subst h
          have hkk : ¬ k = k0 := fun he => h0 he.symm
          simp [insertKV, lookupKV, h0, hkk]
        · simp [insertKV, lookupKV, h0, h, ih]

/-- A removed key is no longer found. -/
theorem lookupKV_removeKV_self {α β : Type} [DecidableEq α] (t : List (α × β)) (k : α) :
    lookupKV (removeKV t k) k = none := by
  induction t with
  | nil => rfl
  | cons kv rest ih =>
      obtain ⟨k0, v0⟩ := kv
      by_cases h : k0 = k <;> simp [removeKV, lookupKV, h, ih]

/-- Removing an absent key changes nothing. -/
theorem removeKV_absent {α β : Type} [DecidableEq α] (t : List (α × β)) (k : α)
    (h : lookupKV t k = none) : removeKV t k = t := by
  induction t with
  | nil => rfl
  | cons kv rest ih =>
      obtain ⟨k0, v0⟩ := kv
      by_cases h0 : k0 = k
      · simp [lookupKV, h0] at h
      · simp [lookupKV, h0] at h
        simp [removeKV, h0, ih h]

/-- Lookup skips a prefix that does not contain the key. -/
theorem lookupKV_append {α β : Type} [DecidableEq α] (t1 t2 : List (α × β)) (k : α)
    (h : lookupKV t1 k = none) : lookupKV (t1 ++ t2) k = lookupKV t2 k := by
  induction t1 with
  | nil => rfl
  | cons kv rest ih =>
      obtain ⟨k0, v0⟩ := kv
      by_cases h0 : k0 = k
      · simp [lookupKV, h0] at h
      · simp [lookupKV, h0] at h
        simp [lookupKV, h0, ih h]

/-- Inserting an absent key appends the new entry at the end. -/
theorem insertKV_absent {α β : Type} [DecidableEq α] (t : List (α × β)) (k : α) (v : β)
    (h : lookupKV t k = none) : insertKV t k v = t ++ [(k, v)] := by
  induction t with
  | nil => rfl
  | cons kv rest ih =>
      obtain ⟨k0, v0⟩ := kv
      by_cases h0 : k0 = k
      · simp [lookupKV, h0] at h
      · simp [lookupKV, h0] at h
        simp [insertKV, h0, ih h]

/-- Revealing the next index extends the unused view by that index exactly
when it is not already marked used. -/
theorem list_unused_reveal (s : EngineState) :
    list_unused_addresses { s with revealed := s.revealed + 1 } =
      list_unused_addresses s ++
        (if s.used s.revealed then [] else [s.revealed]) := by
  simp only [list_unused_addresses, List.range_succ, List.filter_append]
  cases h : s.used s.revealed <;> simp [List.filter, h]

/-- Revealing one index grows the unused pool by at most one. -/
theorem length_unused_reveal (s : EngineState) :
    (list_unused_addresses { s with revealed := s.revealed + 1 }).length ≤
      (list_unused_addresses s).length + 1 := by
  rw [list_unused_reveal, List.length_append]
  cases h : s.used s.revealed <;> simp

/-- The unused view lists indices in strictly increasing order. -/
theorem pairwise_unused (s : EngineState) :
    (list_unused_addresses s).Pairwise (· < ·) :=
  (List.pairwise_lt_range s.revealed).filter _

/-- The head of a strictly increasing list is its minimum. -/
theorem head_le_of_pairwise_lt {l : List Nat} {a : Nat} (hp : l.Pairwise (· < ·))
    (ha : l.head? = some a) : ∀ b ∈ l, a ≤ b := by
  cases l with
  | nil => simp at ha
  | cons x t =>
      simp only [List.head?_cons, Option.some.injEq] at ha
      subst ha
      intro b hb
      rcases List.mem_cons.mp hb with rfl | hbt
      · exact Nat.le_refl _
      · exact Nat.le_of_lt ((List.pairwise_cons.mp hp).1 b hbt)

/-- Taking a positive prefix preserves the head. -/
theorem head?_take {α : Type} {n : Nat} (hn : n ≠ 0) (l : List α) :
    (l.take n).head? = l.head? := by
  cases n with
  | zero => exact absurd rfl hn
  | succ k => cases l <;> simp

/-- Decoding an entry list built by `tableOf` filters exactly by network. -/
theorem get_all_tableOf (ms : List WalletMetadata) (nf : Option Network) :
    WalletsTable.get_all (tableOf ms) nf =
      .ok (match nf with
          | some n => ms.filter (fun m => decide (m.network = n))
          | none => ms) := by
  induction ms with
  | nil => cases nf <;> rfl
  | cons m ms ih =>
      show WalletsTable.get_all ((m.id.toString, encodeMetadata m) :: tableOf ms) nf = _
      rw [WalletsTable.get_all, decodeMetadata_encodeMetadata, ih]
      cases nf with
      | none => rfl
      | some n =>
          by_cases h : m.network = n <;> simp [List.filter_cons, h]

/-- Saving records with pairwise-fresh ids onto a table disjoint from them
appends their encodings in order. -/
theorem foldl_save_append (ms : List WalletMetadata) (t : Table)
    (hdisj : ∀ m ∈ ms, lookupKV t m.id.toString = none)
    (hnd : (ms.map (fun m => m.id.toString)).Nodup) :
    List.foldl save_new_wallet_metadata t ms = t ++ tableOf ms := by
  induction ms generalizing t with
  | nil => simp [tableOf]
  | cons m ms ih =>
      rw [List.foldl_cons]
      have hsave : save_new_wallet_metadata t m = t ++ [(m.id.toString, encodeMetadata m)] :=
        insertKV_absent t _ _ (hdisj m (List.mem_cons_self m ms))
      rw [hsave]
      have hnd' : (ms.map (fun m => m.id.toString)).Nodup := (List.nodup_cons.mp hnd).2
      have hhead : m.id.toString ∉ ms.map (fun m => m.id.toString) := (List.nodup_cons.mp hnd).1
      have hdisj' : ∀ m' ∈ ms,
          lookupKV (t ++ [(m.id.toString, encodeMetadata m)]) m'.id.toString = none := by
        intro m' hm'
        rw [lookupKV_append _ _ _ (hdisj m' (List.mem_cons_of_mem m hm'))]
        have hne : ¬ m.id.toString = m'.id.toString := by
          intro he
          exact hhead (he ▸ List.mem_map_of_mem (fun m => m.id.toString) hm')
        simp [lookupKV, hne]
      rw [ih _ hdisj' hnd', List.append_assoc]
      rfl

/-! The claim theorems. -/

/-- C1: for every wallet state, `get_new_address` counts the unused
external-keychain addresses bounded to at most `MAX_ADDRESSES = GAP_LIMIT -
5 = 25`; if that count is below 25 it reveals and returns the next
sequential index (incrementing the highest-revealed index by one), and
otherwise it returns the first (lowest-index) unused address without
revealing a new one, so a revealed-but-unused count of at most 25 is
preserved by the call. -/
theorem get_new_address_gap_limit (s : EngineState) :
    (((list_unused_addresses s).take MAX_ADDRESSES).length < MAX_ADDRESSES →
        get_new_address s = (s.revealed, { s with revealed := s.revealed + 1 }))
    ∧ (¬ ((list_unused_addresses s).take MAX_ADDRESSES).length < MAX_ADDRESSES →
        (list_unused_addresses s).head? = some (get_new_address s).1
        ∧ (∀ j ∈ list_unused_addresses s, (get_new_address s).1 ≤ j)
        ∧ (get_new_address s).2 = s)
    ∧ ((list_unused_addresses s).length ≤ MAX_ADDRESSES →
        (list_unused_addresses (get_new_address s).2).length ≤ MAX_ADDRESSES) := by
  by_cases hlt : ((list_unused_addresses s).take MAX_ADDRESSES).length < MAX_ADDRESSES
  · have hga : get_new_address s = (s.revealed, { s with revealed := s.revealed + 1 }) := by
      simp only [get_new_address]
      rw [if_pos hlt]
      rfl
    refine ⟨fun _ => hga, fun h => absurd hlt h, fun _ => ?_⟩
    have hlen : (list_unused_addresses s).length < MAX_ADDRESSES := by
      rw [List.length_take] at hlt
      omega
    rw [hga]
    have h2 := length_unused_reveal s
    show (list_unused_addresses { s with revealed := s.revealed + 1 }).length ≤ MAX_ADDRESSES
    omega
  · have hne : (list_unused_addresses s).take MAX_ADDRESSES ≠ [] := by
      intro h
      rw [h] at hlt
      simp [MAX_ADDRESSES, GAP_LIMIT] at hlt
    obtain ⟨a, tl, hcons⟩ := List.exists_cons_of_ne_nil hne
    have hheadL : (list_unused_addresses s).head? = some a := by
      rw [← head?_take (by decide : MAX_ADDRESSES ≠ 0) (list_unused_addresses s), hcons]
      rfl
    have hga : get_new_address s = (a, s) := by
      simp only [get_new_address]
      rw [if_neg hlt, hcons]
      rfl
    refine ⟨fun h => absurd h hlt, fun _ => ?_, fun hle => ?_⟩
    · rw [hga]
      exact ⟨hheadL, head_le_of_pairwise_lt (pairwise_unused s) hheadL, rfl⟩
    · rw [hga]
      exact hle

/-- Witness for C1: on a fresh wallet the reveal branch fires; after 25
reveals the cycle branch fires and changes nothing; the 25-bound is
preserved from the fresh state. -/
theorem get_new_address_gap_limit_witness :
    get_new_address freshEngine =
      (freshEngine.revealed, { freshEngine with revealed := freshEngine.revealed + 1 })
    ∧ ((list_unused_addresses (runCalls MAX_ADDRESSES freshEngine).2).head? =
        some (get_new_address (runCalls MAX_ADDRESSES freshEngine).2).1
      ∧ (∀ j ∈ list_unused_addresses (runCalls MAX_ADDRESSES freshEngine).2,
          (get_new_address (runCalls MAX_ADDRESSES freshEngine).2).1 ≤ j)
      ∧ (get_new_address (runCalls MAX_ADDRESSES freshEngine).2).2 =
          (runCalls MAX_ADDRESSES freshEngine).2)
    ∧ (list_unused_addresses (get_new_address freshEngine).2).length ≤ MAX_ADDRESSES :=
  ⟨(get_new_address_gap_limit freshEngine).1 (by decide),
   (get_new_address_gap_limit (runCalls MAX_ADDRESSES freshEngine).2).2.1 (by decide),
   (get_new_address_gap_limit freshEngine).2.2 (by decide)⟩

/-- C2: on a fresh wallet with no used addresses, the first 25
`get_new_address` calls return the distinct, strictly increasing indices
0..24, and the 26th call returns index 0 — an address already among the
first 25 — while the number of revealed indices stays 25. -/
theorem fresh_wallet_reveal_then_cycle :
    (runCalls MAX_ADDRESSES freshEngine).1 = List.range MAX_ADDRESSES
    ∧ List.Pairwise (· < ·) (runCalls MAX_ADDRESSES freshEngine).1
    ∧ (runCalls MAX_ADDRESSES freshEngine).1.Nodup
    ∧ (runCalls (MAX_ADDRESSES + 1) freshEngine).1 = List.range MAX_ADDRESSES ++ [0]
    ∧ 0 ∈ (runCalls MAX_ADDRESSES freshEngine).1
    ∧ (runCalls (MAX_ADDRESSES + 1) freshEngine).2.revealed = MAX_ADDRESSES := by
  refine ⟨by decide, by decide, by decide, by decide, by decide, by decide⟩

/-- C3 counterexample: for a transaction confirmed at height 5 queried at
current height 4, the code returns 1 while the claimed formula
`current_height - confirmed_height + 1` (clamped at zero) yields 0 — the
source saturates the subtraction before adding 1, so the two disagree
whenever the current height is below the confirming height. -/
theorem confirmations_counterexample :
    Transaction.confirmations
        { id := ⟨0⟩, amount := ⟨0⟩, direction := .Incoming,
          confirmation_status := .Confirmed 5, timestamp := none } 4 = 1
    ∧ claimedConfirmations
        { id := ⟨0⟩, amount := ⟨0⟩, direction := .Incoming,
          confirmation_status := .Confirmed 5, timestamp := none } 4 = 0
    ∧ Transaction.confirmations
        { id := ⟨0⟩, amount := ⟨0⟩, direction := .Incoming,
          confirmation_status := .Confirmed 5, timestamp := none } 4 ≠
      claimedConfirmations
        { id := ⟨0⟩, amount := ⟨0⟩, direction := .Incoming,
          confirmation_status := .Confirmed 5, timestamp := none } 4 := by
  refine ⟨by decide, by decide, by decide⟩

/-- C3 as amended: `confirmations` returns 0 when unconfirmed and otherwise
the saturating difference `current_height - confirmed_height` (clamped at
zero, computed here in `Int` and truncated) plus one, so the confirming
block counts as confirmation 1 and the result is never below 1 for a
confirmed transaction. -/
theorem confirmations_amended (t : Transaction) (current_height : Nat) :
    t.confirmations current_height =
      (match t.confirmation_status with
      | .Unconfirmed => 0
      | .Confirmed block_height =>
          ((current_height : Int) - (block_height : Int)).toNat + 1) := by
  cases hs : t.confirmation_status with
  | Unconfirmed => simp [Transaction.confirmations, hs]
  | Confirmed bh =>
      simp only [Transaction.confirmations, hs]
      omega

/-- C4: the projection of every chain-engine tuple emits `Outgoing` exactly
when `sent > received` and `Incoming` otherwise, never `SelfTransfer`; the
amount is `received` for `Incoming` and `sent` otherwise; an unconfirmed
chain position maps to `Unconfirmed` and a position confirmed at height `h`
to `Confirmed h`; the txid is carried through. -/
theorem projectTransaction_spec (txid : TransactionId) (sent received : Nat)
    (pos : ChainPosition) :
    (projectTransaction txid sent received pos).direction =
        (if received < sent then TransactionDirection.Outgoing
         else TransactionDirection.Incoming)
    ∧ (projectTransaction txid sent received pos).direction ≠
        TransactionDirection.SelfTransfer
    ∧ (projectTransaction txid sent received pos).amount =
        (if received < sent then Amount.mk sent else Amount.mk received)
    ∧ (projectTransaction txid sent received pos).confirmation_status =
        (match pos with
        | .unconfirmed => ConfirmationStatus.Unconfirmed
        | .confirmed h => ConfirmationStatus.Confirmed h)
    ∧ (projectTransaction txid sent received pos).id = txid := by
  by_cases h : received < sent <;> simp [projectTransaction, h, GT.gt]

/-- C5: saving any metadata record and then getting its id returns the
record unchanged in every field, on every starting table. -/
theorem save_then_get (t : Table) (m : WalletMetadata) :
    WalletsTable.get (save_new_wallet_metadata t m) m.id = .ok (some m) := by
  unfold WalletsTable.get save_new_wallet_metadata
  rw [lookupKV_insertKV, if_pos rfl]
  simp [decodeMetadata_encodeMetadata]

/-- C6: on a table of saved records, `get_all (some n)` returns exactly the
saved records whose network is `n` and `get_all none` returns all of them;
saving records with distinct ids produces exactly such a table. -/
theorem get_all_network_filter :
    (∀ (ms : List WalletMetadata) (nf : Option Network),
        WalletsTable.get_all (tableOf ms) nf =
          .ok (match nf with
              | some n => ms.filter (fun m => decide (m.network = n))
              | none => ms))
    ∧ (∀ ms : List WalletMetadata,
        (ms.map (fun m => m.id.toString)).Nodup →
          List.foldl save_new_wallet_metadata [] ms = tableOf ms) := by
  refine ⟨get_all_tableOf, fun ms hnd => ?_⟩
  rw [foldl_save_append ms [] (fun _ _ => rfl) hnd]
  rfl

/-- Witness for C6: the empty table, and two concrete saved wallets (one
Testnet, one Bitcoin) with distinct ids. -/
theorem get_all_network_filter_witness :
    WalletsTable.get_all (tableOf []) none = .ok []
    ∧ List.foldl save_new_wallet_metadata []
        [{ id := ⟨['a']⟩, name := ['A'], network := Network.Testnet, created_at := [],
           wallet_type := WalletType.Hot, master_fingerprint := none },
         { id := ⟨['b']⟩, name := ['B'], network := Network.Bitcoin, created_at := [],
           wallet_type := WalletType.Cold, master_fingerprint := some ['f'] }] =
      tableOf
        [{ id := ⟨['a']⟩, name := ['A'], network := Network.Testnet, created_at := [],
           wallet_type := WalletType.Hot, master_fingerprint := none },
         { id := ⟨['b']⟩, name := ['B'], network := Network.Bitcoin, created_at := [],
           wallet_type := WalletType.Cold, master_fingerprint := some ['f'] }] :=
  ⟨get_all_network_filter.1 [] none,
   get_all_network_filter.2 _ (by decide)⟩

/-- C7: selecting a wallet and then reading the selection yields that id;
clearing and then reading yields none; clearing when the selection key is
absent leaves the table unchanged. -/
theorem selected_wallet_roundtrip (t : Table) (wallet_id : WalletId) :
    GlobalConfigTable.selected_wallet (GlobalConfigTable.select_wallet t wallet_id) =
      .ok (some wallet_id)
    ∧ GlobalConfigTable.selected_wallet (GlobalConfigTable.clear_selected_wallet t) =
      .ok none
    ∧ (lookupKV t SELECTED_WALLET_KEY = none →
        GlobalConfigTable.clear_selected_wallet t = t) := by
  refine ⟨?_, ?_, ?_⟩
  · unfold GlobalConfigTable.selected_wallet GlobalConfigTable.select_wallet
    rw [lookupKV_insertKV, if_pos rfl]
    rfl
  · unfold GlobalConfigTable.selected_wallet GlobalConfigTable.clear_selected_wallet
    rw [lookupKV_removeKV_self]
  · exact removeKV_absent t SELECTED_WALLET_KEY

/-- Witness for C7: the empty table, where the selection key is absent. -/
theorem selected_wallet_roundtrip_witness :
    GlobalConfigTable.selected_wallet (GlobalConfigTable.select_wallet [] ⟨['a']⟩) =
      .ok (some ⟨['a']⟩)
    ∧ GlobalConfigTable.selected_wallet (GlobalConfigTable.clear_selected_wallet []) =
      .ok none
    ∧ GlobalConfigTable.clear_selected_wallet [] = [] :=
  ⟨(selected_wallet_roundtrip [] ⟨['a']⟩).1,
   (selected_wallet_roundtrip [] ⟨['a']⟩).2.1,
   (selected_wallet_roundtrip [] ⟨['a']⟩).2.2 rfl⟩

/-- C8: loading a wallet id with no persisted engine state fails with the
`WalletNotFound` kind (and no other), both at `try_load_persisted` and
through `load_existing_wallet`, which leaves the manager unchanged. -/
theorem load_missing_wallet_not_found (persisted : WalletId → Option EngineState)
    (m : WalletManager) (wallet_id : WalletId) (network : Network)
    (h : persisted wallet_id = none) :
    try_load_persisted persisted wallet_id network =
      .error (.WalletNotFound WALLET_NOT_FOUND_MSG)
    ∧ WalletManager.load_existing_wallet persisted m wallet_id network =
      (m, .error (.WalletNotFound WALLET_NOT_FOUND_MSG)) := by
  have h1 : try_load_persisted persisted wallet_id network =
      .error (.WalletNotFound WALLET_NOT_FOUND_MSG) := by
    unfold try_load_persisted
    rw [h]
  refine ⟨h1, ?_⟩
  unfold WalletManager.load_existing_wallet
  rw [h1]

/-- Witness for C8: no wallet has persisted state, and loading into the
empty manager fails with the not-found kind leaving it empty. -/
theorem load_missing_wallet_not_found_witness :
    try_load_persisted (fun _ => none) ⟨['a']⟩ Network.Regtest =
      .error (.WalletNotFound WALLET_NOT_FOUND_MSG)
    ∧ WalletManager.load_existing_wallet (fun _ => none) WalletManager.new ⟨['a']⟩
        Network.Regtest =
      (WalletManager.new, .error (.WalletNotFound WALLET_NOT_FOUND_MSG)) :=
  load_missing_wallet_not_found (fun _ => none) WalletManager.new ⟨['a']⟩ Network.Regtest rfl

/-- C9: in every manager state reachable by `add_wallet`,
`load_existing_wallet` and `set_active_wallet` from the empty manager, a
set active pointer refers to a loaded session; `set_active_wallet` on an
unloaded id fails with `WalletNotFound` leaving the whole manager (pointer
included) unchanged; and `add_wallet` makes its wallet active exactly when
no active wallet was set. -/
theorem wallet_manager_active_invariant :
    (∀ m : WalletManager, Reachable m →
      ∀ wallet_id, m.active_wallet_id = some wallet_id →
        (lookupKV m.wallets wallet_id).isSome = true)
    ∧ (∀ (m : WalletManager) (wallet_id : WalletId),
        (lookupKV m.wallets wallet_id).isSome = false →
          m.set_active_wallet wallet_id =
            (m, .error (.WalletNotFound (notFoundMessage wallet_id))))
    ∧ (∀ (m : WalletManager) (w : Wallet),
        (m.add_wallet w).2.active_wallet_id =
          (if m.active_wallet_id.isNone then some w.id else m.active_wallet_id)) := by
  refine ⟨?_, ?_, ?_⟩
  · intro m hreach
    induction hreach with
    | empty =>
        intro wallet_id h
        simp [WalletManager.new] at h
    | add_wallet m w _ ih =>
        intro wallet_id h
        simp only [WalletManager.add_wallet] at h ⊢
        rw [lookupKV_insertKV]
        by_cases hw : w.id = wallet_id
        · simp [hw]
        · rw [if_neg hw]
          cases hact : m.active_wallet_id with
          | none => rw [hact] at h; simp at h; exact absurd h hw
          | some a =>
              rw [hact] at h
              simp at h
              exact ih wallet_id (by rw [hact, h])
    | load_existing persisted m wallet_id network _ ih =>
        intro id h
        unfold WalletManager.load_existing_wallet at h ⊢
        cases htl : try_load_persisted persisted wallet_id network with
        | error e =>
            rw [htl] at h
            exact ih id h
        | ok w =>
            rw [htl] at h
            have h' : m.active_wallet_id = some id := h
            have hgoal : (lookupKV (insertKV m.wallets wallet_id w) id).isSome = true := by
              rw [lookupKV_insertKV]
              by_cases hw : wallet_id = id
              · simp [hw]
              · rw [if_neg hw]
                exact ih id h'
            exact hgoal
    | set_active m wallet_id _ ih =>
        intro id h
        unfold WalletManager.set_active_wallet at h ⊢
        by_cases hc : (lookupKV m.wallets wallet_id).isSome = true
        · rw [if_pos hc] at h ⊢
          have h' : some wallet_id = some id := h
          obtain rfl : wallet_id = id := Option.some.inj h'
          exact hc
        · rw [if_neg hc] at h ⊢
          exact ih id h
  · intro m wallet_id h
    unfold WalletManager.set_active_wallet
    rw [if_neg (by rw [h]; exact Bool.false_ne_true)]
  · intro m w
    rfl

/-- Witness for C9: after adding one wallet to the empty manager the active
pointer refers to a loaded session; setting an unloaded id on the empty
manager fails; the added wallet became active since none was set. -/
theorem wallet_manager_active_invariant_witness :
    (lookupKV ((WalletManager.new.add_wallet
        { id := ⟨['a']⟩, network := Network.Regtest, bdk := freshEngine }).2.wallets)
        (⟨['a']⟩ : WalletId)).isSome = true
    ∧ WalletManager.new.set_active_wallet ⟨['b']⟩ =
        (WalletManager.new, .error (.WalletNotFound (notFoundMessage ⟨['b']⟩)))
    ∧ (WalletManager.new.add_wallet
        { id := ⟨['a']⟩, network := Network.Regtest, bdk := freshEngine }).2.active_wallet_id =
        some ⟨['a']⟩ :=
  ⟨wallet_manager_active_invariant.1 _
      (Reachable.add_wallet WalletManager.new _ Reachable.empty) ⟨['a']⟩ rfl,
   wallet_manager_active_invariant.2.1 WalletManager.new ⟨['b']⟩ rfl,
   wallet_manager_active_invariant.2.2 WalletManager.new
      { id := ⟨['a']⟩, network := Network.Regtest, bdk := freshEngine }⟩

/-- C10: a successful `load_existing_wallet` inserts the loaded session
under the requested id and leaves `active_wallet_id` exactly as it was —
in particular, unlike `add_wallet`, it does not activate the loaded wallet
even when no active wallet is set. -/
theorem load_existing_preserves_active (persisted : WalletId → Option EngineState)
    (m : WalletManager) (wallet_id : WalletId) (network : Network) (engine : EngineState)
    (h : persisted wallet_id = some engine) :
    WalletManager.load_existing_wallet persisted m wallet_id network =
      ({ wallets := insertKV m.wallets wallet_id
            { id := wallet_id, network := network, bdk := engine },
         active_wallet_id := m.active_wallet_id }, .ok ())
    ∧ (m.active_wallet_id = none →
        (WalletManager.load_existing_wallet persisted m wallet_id network).1.active_wallet_id =
          none
        ∧ (m.add_wallet { id := wallet_id, network := network, bdk := engine }).2.active_wallet_id =
          some wallet_id) := by
  have h1 : try_load_persisted persisted wallet_id network =
      .ok { id := wallet_id, network := network, bdk := engine } := by
    unfold try_load_persisted
    rw [h]
  have h2 : WalletManager.load_existing_wallet persisted m wallet_id network =
      ({ wallets := insertKV m.wallets wallet_id
            { id := wallet_id, network := network, bdk := engine },
         active_wallet_id := m.active_wallet_id }, .ok ()) := by
    unfold WalletManager.load_existing_wallet
    rw [h1]
  refine ⟨h2, fun hnone => ⟨?_, ?_⟩⟩
  · rw [h2]
    exact hnone
  · simp only [WalletManager.add_wallet]
    rw [hnone]
    rfl

/-- Witness for C10: loading into the empty manager (no active wallet)
inserts the session and keeps the active pointer at none, while
`add_wallet` of the same session would have activated it. -/
theorem load_existing_preserves_active_witness :
    WalletManager.load_existing_wallet (fun _ => some freshEngine) WalletManager.new
        ⟨['a']⟩ Network.Regtest =
      ({ wallets := insertKV WalletManager.new.wallets ⟨['a']⟩
            { id := ⟨['a']⟩, network := Network.Regtest, bdk := freshEngine },
         active_wallet_id := WalletManager.new.active_wallet_id }, .ok ())
    ∧ (WalletManager.load_existing_wallet (fun _ => some freshEngine) WalletManager.new
        ⟨['a']⟩ Network.Regtest).1.active_wallet_id = none
    ∧ (WalletManager.new.add_wallet
        { id := ⟨['a']⟩, network := Network.Regtest, bdk := freshEngine }).2.active_wallet_id =
      some ⟨['a']⟩ :=
  ⟨(load_existing_preserves_active (fun _ => some freshEngine) WalletManager.new
      ⟨['a']⟩ Network.Regtest freshEngine rfl).1,
   ((load_existing_preserves_active (fun _ => some freshEngine) WalletManager.new
      ⟨['a']⟩ Network.Regtest freshEngine rfl).2 rfl).1,
   ((load_existing_preserves_active (fun _ => some freshEngine) WalletManager.new
      ⟨['a']⟩ Network.Regtest freshEngine rfl).2 rfl).2⟩

end Lumo
